import Mathlib

/-!
Shallow embedding of `chrombpnet/helpers/preprocessing/reads_to_bigwig/reads_to_bigwig.py`.

The script converts aligned reads into a shift-corrected cut-site coverage
BigWig.  The pure logic embedded here:

* the shift-delta rule of `main` (lines 86-89);
* the shift resolution of `main` (lines 57-83): pass user shifts through
  when both are given, otherwise estimate both;
* the exactly-one-input check (`parse_args` mutually exclusive group,
  and the assert at the top of `generate_bigwig`, line 31);
* the awk program built at line 40, which shifts both coordinates of each
  record by the strand's delta and drops records whose strand is neither
  `+` nor `-`;
* the downstream `bedtools genomecov -bg -5` / `sort -k1,1 -k2,2n`
  aggregation, modelled from the spec (those tools are external
  collaborators, not code of this repository);
* the orchestration and exit behaviour of `generate_bigwig`
  (lines 30-52), as an event trace.
-/

/-- Assay type, from the `--data-type` CLI choice (`ATAC` or `DNASE`). -/
inductive AssayType
  | ATAC
  | DNASE
deriving DecidableEq, Repr

/-- The shift-delta rule of `main`, lines 86-89:
`ATAC → (4 - plus_shift, -4 - minus_shift)`,
`DNASE → (-plus_shift, 1 - minus_shift)`. -/
def computeDelta : AssayType → Int → Int → Int × Int
  | .ATAC, plusShift, minusShift => (4 - plusShift, -4 - minusShift)
  | .DNASE, plusShift, minusShift => (-plusShift, 1 - minusShift)

/-- Shift resolution of `main`, lines 57-83: if either user shift is
absent, both components are taken from the external estimator
(`auto_shift_detect.compute_shift`); otherwise the user pair is returned
unchanged. -/
def resolveShift (userPlus userMinus : Option Int) (estimated : Int × Int) :
    Int × Int :=
  if userPlus.isNone || userMinus.isNone then estimated
  else (userPlus.getD 0, userMinus.getD 0)

/-- The assert of `generate_bigwig`, line 31:
`(bam is None) + (frag is None) + (tag is None) == 2`. -/
def onlyOneInput (bam frag tag : Option String) : Bool :=
  bam.isNone.toNat + frag.isNone.toNat + tag.isNone.toNat == 2

/-- The spec's reading of the same condition: exactly one of the three
input sources is set. -/
def exactlyOneInputSet (bam frag tag : Option String) : Prop :=
  (bam.isSome ∧ frag = none ∧ tag = none) ∨
  (bam = none ∧ frag.isSome ∧ tag = none) ∨
  (bam = none ∧ frag = none ∧ tag.isSome)

instance (bam frag tag : Option String) :
    Decidable (exactlyOneInputSet bam frag tag) := by
  unfold exactlyOneInputSet; infer_instance

/-- One normalized input record, the tagAlign tuple
`(chrom, start, end, name, score, strand)` flowing through the awk stage. -/
structure ReadInterval where
  chrom : String
  start : Int
  stop : Int
  name : String
  score : Int
  strand : String
deriving DecidableEq, Repr

/-- The awk program of `generate_bigwig`, line 40: a record with strand
`+` has the plus delta added to both coordinates, a record with strand
`-` the minus delta; any other strand prints nothing. -/
def awkShiftRecord (plusDelta minusDelta : Int) (r : ReadInterval) :
    Option ReadInterval :=
  if r.strand = "+" then
    some { r with start := r.start + plusDelta, stop := r.stop + plusDelta }
  else if r.strand = "-" then
    some { r with start := r.start + minusDelta, stop := r.stop + minusDelta }
  else
    none

/-- Modelled from the spec: `bedtools genomecov -5` reduces each interval
to its 5-prime base — the `start` for strand `+`, `end - 1` for strand
`-`.  The tool is an external collaborator invoked at line 40, not code
of this repository. -/
def cutPos (r : ReadInterval) : Int :=
  if r.strand = "+" then r.start else r.stop - 1

/-- The shifted stream entering `bedtools genomecov`: every record the awk
program prints, in input order. -/
def shiftedStream (plusDelta minusDelta : Int) (l : List ReadInterval) :
    List ReadInterval :=
  l.filterMap (awkShiftRecord plusDelta minusDelta)

/-- Chromosome sizes table: association list from the chrom-sizes file. -/
def ChromSizes := List (String × Nat)

/-- Modelled from the spec: the cut sites the aggregation counts.  A shifted
record contributes its 5-prime position when its chromosome is in the
sizes table and the position lies in `[0, chromLength)`; otherwise it is
dropped, not wrapped and not fatal (spec section 4.3 failure modes). -/
def cutSites (sizes : List (String × Nat)) (l : List ReadInterval) :
    List (String × Nat) :=
  l.filterMap fun s =>
    match sizes.lookup s.chrom with
    | some len =>
        if 0 ≤ cutPos s ∧ cutPos s < (len : Int) then
          some (s.chrom, (cutPos s).toNat)
        else
          none
    | none => none

/-- Depth of coverage at one base: how many cut sites fall exactly there. -/
def depthAt (cuts : List (String × Nat)) (c : String) (p : Nat) : Nat :=
  (cuts.filter fun x => x.1 = c ∧ x.2 = p).length

/-- One bedGraph line `(chrom, start, end, depth)`. -/
structure CoverageRun where
  chrom : String
  start : Nat
  stop : Nat
  depth : Nat
deriving DecidableEq, Repr

/-- Modelled from the spec: the sweep over one chromosome.  `d` is the
depth function, `runStart`/`dep` the currently open constant-depth run,
`pos` the next base, `fuel` the bases left before the chromosome end.
Maximal positive-depth runs are emitted, zero-depth gaps suppressed. -/
def sweep (c : String) (d : Nat → Nat) :
    Nat → Nat → Nat → Nat → List CoverageRun
  | runStart, pos, dep, 0 =>
      if 0 < dep then [⟨c, runStart, pos, dep⟩] else []
  | runStart, pos, dep, fuel + 1 =>
      if d pos = dep then
        sweep c d runStart (pos + 1) dep fuel
      else
        (if 0 < dep then [⟨c, runStart, pos, dep⟩] else []) ++
          sweep c d pos (pos + 1) (d pos) fuel

/-- Strict lexicographic order on character lists, the collation of the
final `sort -k1,1` stage. -/
def lexLt : List Char → List Char → Bool
  | [], [] => false
  | [], _ :: _ => true
  | _ :: _, [] => false
  | a :: as, b :: bs =>
    if a < b then true
    else if b < a then false
    else lexLt as bs

theorem lexLt_eq_of_not : ∀ as bs : List Char,
    lexLt as bs = false → lexLt bs as = false → as = bs
  | [], [], _, _ => rfl
  | [], _ :: _, h1, _ => by simp [lexLt] at h1
  | _ :: _, [], _, h2 => by simp [lexLt] at h2
  | a :: as, b :: bs, h1, h2 => by
    by_cases hab : a < b
    · simp [lexLt, hab] at h1
    · by_cases hba : b < a
      · simp [lexLt, hba] at h2
      · have heq : a = b := le_antisymm (le_of_not_lt hba) (le_of_not_lt hab)
        subst heq
        simp only [lexLt, if_neg hab] at h1 h2
        rw [lexLt_eq_of_not as bs h1 h2]

theorem lexLt_trans : ∀ as bs cs : List Char,
    lexLt as bs = true → lexLt bs cs = true → lexLt as cs = true := by
  intro as
  induction as with
  | nil =>
    intro bs cs h1 h2
    cases bs with
    | nil => simp [lexLt] at h1
    | cons b bs =>
      cases cs with
      | nil => simp [lexLt] at h2
      | cons c cs => simp [lexLt]
  | cons a as ih =>
    intro bs cs h1 h2
    cases bs with
    | nil => simp [lexLt] at h1
    | cons b bs =>
      cases cs with
      | nil => simp [lexLt] at h2
      | cons c cs =>
        by_cases hab : a < b
        · by_cases hbc : b < c
          · simp [lexLt, lt_trans hab hbc]
          · by_cases hcb : c < b
            · simp [lexLt, hbc, hcb] at h2
            · have heq : b = c :=
                le_antisymm (le_of_not_lt hcb) (le_of_not_lt hbc)
              subst heq
              simp [lexLt, hab]
        · by_cases hba : b < a
          · simp [lexLt, hab, hba] at h1
          · have heq : a = b :=
              le_antisymm (le_of_not_lt hba) (le_of_not_lt hab)
            subst heq
            by_cases hac : a < c
            · simp [lexLt, hac]
            · by_cases hca : c < a
              · simp [lexLt, hac, hca] at h2
              · have heq2 : a = c :=
                  le_antisymm (le_of_not_lt hca) (le_of_not_lt hac)
                subst heq2
                simp only [lexLt, if_neg hab] at h1 h2 ⊢
                exact ih bs cs h1 h2

/-- Lexicographic comparison of chromosome names, as `sort -k1,1` orders
them. -/
def chromLt (a b : String) : Bool := lexLt a.data b.data

theorem chromLt_trans {a b c : String} (h1 : chromLt a b = true)
    (h2 : chromLt b c = true) : chromLt a c = true :=
  lexLt_trans a.data b.data c.data h1 h2

theorem chromLt_eq_of_not {a b : String} (h1 : chromLt a b = false)
    (h2 : chromLt b a = false) : a = b := by
  have hd := lexLt_eq_of_not a.data b.data h1 h2
  cases a
  cases b
  exact congrArg String.mk hd

/-- Ordering of the final `sort -k1,1 -k2,2n` at line 40: lexicographic on
chromosome, then numeric on start. -/
def runLe (a b : CoverageRun) : Prop :=
  chromLt a.chrom b.chrom = true ∨ (a.chrom = b.chrom ∧ a.start ≤ b.start)

instance : DecidableRel runLe := fun a b => by
  unfold runLe; infer_instance

instance : IsTotal CoverageRun runLe where
  total a b := by
    unfold runLe
    rcases h1 : chromLt a.chrom b.chrom with _ | _
    · rcases h2 : chromLt b.chrom a.chrom with _ | _
      · have heq := chromLt_eq_of_not h1 h2
        rcases le_total a.start b.start with h3 | h3
        · exact Or.inl (Or.inr ⟨heq, h3⟩)
        · exact Or.inr (Or.inr ⟨heq.symm, h3⟩)
      · exact Or.inr (Or.inl rfl)
    · exact Or.inl (Or.inl rfl)

instance : IsTrans CoverageRun runLe where
  trans a b c hab hbc := by
    unfold runLe at *
    rcases hab with h1 | ⟨h1, h1s⟩
    · rcases hbc with h2 | ⟨h2, _⟩
      · exact Or.inl (chromLt_trans h1 h2)
      · exact Or.inl (h2 ▸ h1)
    · rcases hbc with h2 | ⟨h2, h2s⟩
      · exact Or.inl (by rw [h1]; exact h2)
      · exact Or.inr ⟨h1.trans h2, h1s.trans h2s⟩

/-- Modelled from the spec: the whole aggregation of line 40 — shift via
awk, keep in-bounds cut sites, per-chromosome sweep, then the final
`sort -k1,1 -k2,2n`. -/
def aggregate (plusDelta minusDelta : Int) (sizes : List (String × Nat))
    (intervals : List ReadInterval) : List CoverageRun :=
  let cuts := cutSites sizes (shiftedStream plusDelta minusDelta intervals)
  List.insertionSort runLe
    ((sizes.map fun cl => sweep cl.1 (depthAt cuts cl.1) 0 0 0 cl.2).flatten)

/-! ## Orchestration trace of `generate_bigwig` (lines 30-52) -/

/-- Observable events of one `generate_bigwig` run, in program order. -/
inductive PipelineEvent
  /-- The line-31 assert fails. -/
  | configError
  /-- One of the three stream adapters is opened (lines 33-38). -/
  | openStream (path : String)
  /-- The named temporary bedGraph file is created (line 42). -/
  | makeTmp
  /-- The awk/sort/genomecov pipeline writes the bedGraph (lines 44-47). -/
  | makeBedgraph
  /-- `bedGraphToBigWig` is invoked with this destination path (line 50). -/
  | invokeEncoder (dest : String)
  /-- The final output is renamed from a temporary path onto `dest`.
  Present in the event alphabet so its absence is expressible; the code
  never performs it. -/
  | renameOutput (dest : String)
  /-- `tmp_bedgraph.close()` runs (line 52). -/
  | closeTmp
deriving DecidableEq, Repr

/-- Outcome of one run: the events it performed and the process exit
code. -/
structure RunOutcome where
  events : List PipelineEvent
  exitCode : Nat
deriving DecidableEq, Repr

/-- The input path selected by the `if/elif` chain of lines 33-38. -/
def selectedInput (bam frag tag : Option String) : String :=
  match bam with
  | some p => p
  | none =>
    match frag with
    | some p => p
    | none => tag.getD ""

/-- Event trace of `generate_bigwig` (lines 30-52).  `encoderRaises`
models `subprocess.run` raising (e.g. `bedGraphToBigWig` missing), which
propagates out of the function, skipping line 52, and kills the process
with a nonzero exit; `encoderFails` models `bedGraphToBigWig` exiting
nonzero, whose return code line 50 ignores, so execution falls through to
line 52 and the process still exits 0. -/
def generateBigwigRun (bam frag tag : Option String) (outputPrefix : String)
    (encoderRaises encoderFails : Bool) : RunOutcome :=
  if onlyOneInput bam frag tag then
    let pre := [PipelineEvent.openStream (selectedInput bam frag tag),
                PipelineEvent.makeTmp, PipelineEvent.makeBedgraph,
                PipelineEvent.invokeEncoder (outputPrefix ++ "_unstranded.bw")]
    if encoderRaises then
      { events := pre, exitCode := 1 }
    else
      { events := pre ++ [PipelineEvent.closeTmp],
        exitCode := if encoderFails then 0 else 0 }
  else
    { events := [PipelineEvent.configError], exitCode := 1 }

/-! ## C1: the shift-delta rule -/

/-- C1: for every integer `plusShift` and `minusShift`, the shift-delta
calculator satisfies `plus_delta + plusShift = 4` and
`minus_delta + minusShift = -4` for ATAC, and `plus_delta + plusShift = 0`
and `minus_delta + minusShift = 1` for DNASE, as a pure total function. -/
theorem computeDelta_spec (plusShift minusShift : Int) :
    (computeDelta .ATAC plusShift minusShift).1 + plusShift = 4 ∧
    (computeDelta .ATAC plusShift minusShift).2 + minusShift = -4 ∧
    (computeDelta .DNASE plusShift minusShift).1 + plusShift = 0 ∧
    (computeDelta .DNASE plusShift minusShift).2 + minusShift = 1 := by
  refine ⟨?_, ?_, ?_, ?_⟩ <;> simp [computeDelta]

/-! ## C2: the shift resolver -/

/-- C2: when both user shifts are present the resolver returns them
unchanged and skips estimation; when either is absent the whole result is
the estimated pair, so the pair is never mixed. -/
theorem resolveShift_spec (userPlus userMinus : Option Int)
    (estimated : Int × Int) :
    (∀ p m, userPlus = some p → userMinus = some m →
      resolveShift userPlus userMinus estimated = (p, m)) ∧
    ((userPlus = none ∨ userMinus = none) →
      resolveShift userPlus userMinus estimated = estimated) := by
  constructor
  · intro p m hp hm
    subst hp; subst hm
    simp [resolveShift]
  · intro h
    rcases h with h | h <;> subst h <;> simp [resolveShift]

/-- Witness for C2 at concrete inputs. -/
theorem resolveShift_spec_witness :
    resolveShift (some 3) (some (-2)) (7, 9) = (3, -2) ∧
    resolveShift (some 3) none (7, 9) = (7, 9) :=
  ⟨(resolveShift_spec (some 3) (some (-2)) (7, 9)).1 3 (-2) rfl rfl,
   (resolveShift_spec (some 3) none (7, 9)).2 (Or.inr rfl)⟩

/-! ## C3: exactly-one-input validation -/

/-- C3: the line-31 check passes exactly when exactly one input source is
set; when it does not, the run stops with the configuration error as its
only event — in particular before any stream is opened — and a nonzero
exit. -/
theorem inputValidation_spec (bam frag tag : Option String) (pfx : String)
    (encoderRaises encoderFails : Bool) :
    (onlyOneInput bam frag tag = true ↔ exactlyOneInputSet bam frag tag) ∧
    (¬ exactlyOneInputSet bam frag tag →
      generateBigwigRun bam frag tag pfx encoderRaises encoderFails =
        { events := [PipelineEvent.configError], exitCode := 1 }) := by
  have hiff : onlyOneInput bam frag tag = true ↔ exactlyOneInputSet bam frag tag := by
    rcases bam with _ | b <;> rcases frag with _ | f <;> rcases tag with _ | t <;>
      simp [onlyOneInput, exactlyOneInputSet]
  refine ⟨hiff, fun h => ?_⟩
  have hfalse : onlyOneInput bam frag tag = false := by
    rcases hb : onlyOneInput bam frag tag with _ | _
    · rfl
    · exact absurd (hiff.mp hb) h
  simp [generateBigwigRun, hfalse]

/-- Witness for C3: supplying both a BAM and a fragment file stops the run
at the configuration error. -/
theorem inputValidation_spec_witness :
    generateBigwigRun (some "a.bam") (some "a.frag") none "out" false false =
      { events := [PipelineEvent.configError], exitCode := 1 } :=
  (inputValidation_spec (some "a.bam") (some "a.frag") none "out" false false).2
    (by decide)

/-! ## C4: cut-site derivation -/

/-- C4: the aggregation derives each record's cut site as the single-base
interval at the delta-corrected 5-prime end: the shifted `start` for a
`+`-strand record, the shifted `end - 1` for a `-`-strand record, on the
record's own chromosome. -/
theorem cutSite_spec (plusDelta minusDelta : Int) (r : ReadInterval) :
    (r.strand = "+" →
      (awkShiftRecord plusDelta minusDelta r).map
          (fun s => (s.chrom, cutPos s, cutPos s + 1)) =
        some (r.chrom, r.start + plusDelta, r.start + plusDelta + 1)) ∧
    (r.strand = "-" →
      (awkShiftRecord plusDelta minusDelta r).map
          (fun s => (s.chrom, cutPos s, cutPos s + 1)) =
        some (r.chrom, r.stop - 1 + minusDelta, r.stop - 1 + minusDelta + 1)) := by
  constructor
  · intro h
    simp [awkShiftRecord, cutPos, h]
  · intro h
    have hne : ("-" : String) ≠ "+" := by decide
    simp [awkShiftRecord, cutPos, h, hne]
    omega

/-- Witness for C4, the spec's Scenario 1 shape: a `+`-strand interval
`(chr1, 100, 150)` with delta `0` cuts at `(chr1, 100, 101)`. -/
theorem cutSite_spec_witness :
    (awkShiftRecord 0 0 ⟨"chr1", 100, 150, "r0", 0, "+"⟩).map
        (fun s => (s.chrom, cutPos s, cutPos s + 1)) =
      some ("chr1", 100, 101) :=
  (cutSite_spec 0 0 ⟨"chr1", 100, 150, "r0", 0, "+"⟩).1 rfl

/-! ## C9: records with an unknown strand are dropped silently -/

/-- C9: the awk stage prints nothing for a record whose strand is neither
`+` nor `-` — the record yields no cut site and leaves the aggregate
output unchanged — while every `+` or `-` record is passed through. -/
theorem strandFilter_spec (plusDelta minusDelta : Int)
    (sizes : List (String × Nat)) (rest : List ReadInterval)
    (r : ReadInterval) (h1 : r.strand ≠ "+") (h2 : r.strand ≠ "-") :
    awkShiftRecord plusDelta minusDelta r = none ∧
    aggregate plusDelta minusDelta sizes (r :: rest) =
      aggregate plusDelta minusDelta sizes rest ∧
    ∀ s : ReadInterval, s.strand = "+" ∨ s.strand = "-" →
      (awkShiftRecord plusDelta minusDelta s).isSome = true := by
  have hnone : awkShiftRecord plusDelta minusDelta r = none := by
    simp [awkShiftRecord, h1, h2]
  refine ⟨hnone, ?_, ?_⟩
  · simp [aggregate, shiftedStream, List.filterMap_cons, hnone]
  · intro s hs
    rcases hs with hs | hs <;> simp [awkShiftRecord, hs]

/-- Witness for C9: a strand-`.` record is dropped and changes nothing. -/
theorem strandFilter_spec_witness :
    awkShiftRecord 4 (-4) ⟨"chr1", 10, 20, "r0", 0, "."⟩ = none ∧
    aggregate 4 (-4) [("chr1", 50)] [⟨"chr1", 10, 20, "r0", 0, "."⟩] =
      aggregate 4 (-4) [("chr1", 50)] [] ∧
    ∀ s : ReadInterval, s.strand = "+" ∨ s.strand = "-" →
      (awkShiftRecord 4 (-4) s).isSome = true :=
  strandFilter_spec 4 (-4) [("chr1", 50)] []
    ⟨"chr1", 10, 20, "r0", 0, "."⟩ (by decide) (by decide)

/-! ## C10: the shift is a frame translation -/

/-- C10: the awk stage adds one and the same delta to both coordinates, so
interval length is preserved, and the chrom, name, score and strand fields
pass through unchanged. -/
theorem shiftFrame_spec (plusDelta minusDelta : Int) (r s : ReadInterval)
    (h : awkShiftRecord plusDelta minusDelta r = some s) :
    s.stop - s.start = r.stop - r.start ∧ s.chrom = r.chrom ∧
    s.name = r.name ∧ s.score = r.score ∧ s.strand = r.strand := by
  unfold awkShiftRecord at h
  split at h
  · cases h
    refine ⟨by ring, rfl, rfl, rfl, rfl⟩
  · split at h
    · cases h
      refine ⟨by ring, rfl, rfl, rfl, rfl⟩
    · cases h

/-- Witness for C10 on a concrete `-`-strand record. -/
theorem shiftFrame_spec_witness :
    (⟨"chr2", 37, 45, "r1", 1, "-"⟩ : ReadInterval).stop -
        (⟨"chr2", 37, 45, "r1", 1, "-"⟩ : ReadInterval).start =
      (⟨"chr2", 30, 38, "r1", 1, "-"⟩ : ReadInterval).stop -
        (⟨"chr2", 30, 38, "r1", 1, "-"⟩ : ReadInterval).start ∧
    (⟨"chr2", 37, 45, "r1", 1, "-"⟩ : ReadInterval).chrom = "chr2" ∧
    (⟨"chr2", 37, 45, "r1", 1, "-"⟩ : ReadInterval).name = "r1" ∧
    (⟨"chr2", 37, 45, "r1", 1, "-"⟩ : ReadInterval).score = 1 ∧
    (⟨"chr2", 37, 45, "r1", 1, "-"⟩ : ReadInterval).strand = "-" :=
  shiftFrame_spec 7 7 ⟨"chr2", 30, 38, "r1", 1, "-"⟩
    ⟨"chr2", 37, 45, "r1", 1, "-"⟩ (by decide)

/-! ## C7: exit status and final-output handling -/

/-- C7 counterexample: with one valid input and an encoder that exits
nonzero, the run still finishes with exit code 0, and the encoder was
pointed directly at the final path `out_unstranded.bw` — there is no
temporary-path-plus-rename step in the trace. -/
theorem encoderFailure_counterexample :
    (generateBigwigRun (some "a.bam") none none "out" false true).exitCode = 0 ∧
    (generateBigwigRun (some "a.bam") none none "out" false true).events =
      [PipelineEvent.openStream "a.bam", PipelineEvent.makeTmp,
       PipelineEvent.makeBedgraph,
       PipelineEvent.invokeEncoder "out_unstranded.bw",
       PipelineEvent.closeTmp] := by
  constructor <;> rfl

/-- C7 amended: on every run that passes the input check, the encoder is
invoked directly on `<prefix>_unstranded.bw` and no rename is ever
performed; a nonzero encoder exit status is ignored, so the process exits
0 whenever the invocation returns, and exits nonzero only when the
invocation raises. -/
theorem encoderFailure_spec (bam frag tag : Option String) (pfx : String)
    (encoderRaises encoderFails : Bool)
    (h : onlyOneInput bam frag tag = true) :
    PipelineEvent.invokeEncoder (pfx ++ "_unstranded.bw") ∈
      (generateBigwigRun bam frag tag pfx encoderRaises encoderFails).events ∧
    (∀ d, PipelineEvent.renameOutput d ∉
      (generateBigwigRun bam frag tag pfx encoderRaises encoderFails).events) ∧
    (encoderRaises = false →
      (generateBigwigRun bam frag tag pfx encoderRaises encoderFails).exitCode
        = 0) ∧
    (encoderRaises = true →
      (generateBigwigRun bam frag tag pfx encoderRaises encoderFails).exitCode
        = 1) := by
  rcases encoderRaises with _ | _ <;>
    simp [generateBigwigRun, h]

/-- Witness for C7 amended at a concrete failing-encoder run. -/
theorem encoderFailure_spec_witness :
    PipelineEvent.invokeEncoder ("out" ++ "_unstranded.bw") ∈
      (generateBigwigRun none (some "a.frag") none "out" false true).events ∧
    (∀ d, PipelineEvent.renameOutput d ∉
      (generateBigwigRun none (some "a.frag") none "out" false true).events) ∧
    (false = false →
      (generateBigwigRun none (some "a.frag") none "out" false true).exitCode
        = 0) ∧
    (false = true →
      (generateBigwigRun none (some "a.frag") none "out" false true).exitCode
        = 1) :=
  encoderFailure_spec none (some "a.frag") none "out" false true (by decide)

/-! ## C8: release of the temporary bedGraph -/

/-- C8 counterexample: when the encoder invocation raises, the temporary
bedGraph was created but `close` is never reached. -/
theorem tmpCleanup_counterexample :
    PipelineEvent.makeTmp ∈
      (generateBigwigRun (some "a.bam") none none "out" true false).events ∧
    PipelineEvent.closeTmp ∉
      (generateBigwigRun (some "a.bam") none none "out" true false).events := by
  decide

/-- C8 amended: the temporary bedGraph is closed on every path where the
encoder invocation returns — whether its exit status is zero or not — but
not on the path where the invocation raises, since the close is not
guarded by a finally. -/
theorem tmpCleanup_spec (bam frag tag : Option String) (pfx : String)
    (encoderFails : Bool) (h : onlyOneInput bam frag tag = true) :
    PipelineEvent.closeTmp ∈
      (generateBigwigRun bam frag tag pfx false encoderFails).events ∧
    PipelineEvent.closeTmp ∉
      (generateBigwigRun bam frag tag pfx true encoderFails).events := by
  simp [generateBigwigRun, h]

/-- Witness for C8 amended at a concrete run. -/
theorem tmpCleanup_spec_witness :
    PipelineEvent.closeTmp ∈
      (generateBigwigRun none none (some "a.tag") "out" false true).events ∧
    PipelineEvent.closeTmp ∉
      (generateBigwigRun none none (some "a.tag") "out" true true).events :=
  tmpCleanup_spec none none (some "a.tag") "out" true (by decide)

/-! ## C5: output ordering of the aggregation -/

/-- Bounds and shape of one emitted run: right chromosome, positive depth,
nonempty, inside `[lo, hi)`. -/
def RunWithin (c : String) (lo hi : Nat) (r : CoverageRun) : Prop :=
  r.chrom = c ∧ 0 < r.depth ∧ lo ≤ r.start ∧ r.start < r.stop ∧ r.stop ≤ hi

/-- Soundness of the per-chromosome sweep: every emitted run is a
nonempty positive-depth run inside the scanned range, and successive runs
are emitted left to right without overlap. -/
theorem sweep_sound (c : String) (d : Nat → Nat) :
    ∀ (fuel runStart pos dep : Nat), runStart ≤ pos → (0 < dep → runStart < pos) →
      (∀ r ∈ sweep c d runStart pos dep fuel, RunWithin c runStart (pos + fuel) r) ∧
      List.Pairwise (fun a b => a.stop ≤ b.start) (sweep c d runStart pos dep fuel)
  | 0, runStart, pos, dep, hle, hlt => by
    simp only [sweep]
    by_cases hdep : 0 < dep
    · rw [if_pos hdep]
      refine ⟨fun r hr => ?_, List.pairwise_singleton _ _⟩
      rw [List.mem_singleton] at hr
      subst hr
      refine ⟨rfl, hdep, le_refl _, hlt hdep, ?_⟩
      show pos ≤ pos + 0
      omega
    · rw [if_neg hdep]
      simp
  | fuel + 1, runStart, pos, dep, hle, hlt => by
    simp only [sweep]
    by_cases hdp : d pos = dep
    · rw [if_pos hdp]
      have IH := sweep_sound c d fuel runStart (pos + 1) dep (by omega)
        (fun h => by have := hlt h; omega)
      refine ⟨fun r hr => ?_, IH.2⟩
      obtain ⟨h1, h2, h3, h4, h5⟩ := IH.1 r hr
      exact ⟨h1, h2, h3, h4, by omega⟩
    · rw [if_neg hdp]
      have IH := sweep_sound c d fuel pos (pos + 1) (d pos) (by omega)
        (fun _ => by omega)
      constructor
      · intro r hr
        rcases List.mem_append.mp hr with hr | hr
        · by_cases hdep : 0 < dep
          · rw [if_pos hdep, List.mem_singleton] at hr
            subst hr
            refine ⟨rfl, hdep, le_refl _, hlt hdep, ?_⟩
            show pos ≤ pos + (fuel + 1)
            omega
          · rw [if_neg hdep] at hr
            exact absurd hr (List.not_mem_nil r)
        · obtain ⟨h1, h2, h3, h4, h5⟩ := IH.1 r hr
          exact ⟨h1, h2, by omega, h4, by omega⟩
      · refine List.pairwise_append.mpr ⟨?_, IH.2, ?_⟩
        · by_cases hdep : 0 < dep
          · rw [if_pos hdep]
            exact List.pairwise_singleton _ _
          · rw [if_neg hdep]
            exact List.Pairwise.nil
        · intro a ha b hb
          by_cases hdep : 0 < dep
          · rw [if_pos hdep, List.mem_singleton] at ha
            subst ha
            exact (IH.1 b hb).2.2.1
          · rw [if_neg hdep] at ha
            exact absurd ha (List.not_mem_nil a)

/-- Two runs that either live on different chromosomes or occupy disjoint
ranges on the same one. -/
def disjointRuns (a b : CoverageRun) : Prop :=
  a.chrom ≠ b.chrom ∨ a.stop ≤ b.start ∨ b.stop ≤ a.start

theorem disjointRuns_symm : ∀ {a b : CoverageRun},
    disjointRuns a b → disjointRuns b a := by
  intro a b h
  rcases h with h | h | h
  · exact Or.inl (Ne.symm h)
  · exact Or.inr (Or.inr h)
  · exact Or.inr (Or.inl h)

/-- The unsorted concatenation of all per-chromosome sweeps is pairwise
disjoint when the sizes table has no duplicate chromosome. -/
theorem flatten_disjoint (cuts sizes : List (String × Nat))
    (hnd : (sizes.map Prod.fst).Nodup) :
    List.Pairwise disjointRuns
      ((sizes.map fun cl => sweep cl.1 (depthAt cuts cl.1) 0 0 0 cl.2).flatten) := by
  rw [List.pairwise_flatten]
  constructor
  · intro l hl
    rcases List.mem_map.mp hl with ⟨cl, _, rfl⟩
    exact ((sweep_sound cl.1 (depthAt cuts cl.1) cl.2 0 0 0 (le_refl 0)
      (fun h => h)).2).imp (fun h => Or.inr (Or.inl h))
  · rw [List.pairwise_map]
    have hnd2 : List.Pairwise (fun a b : String × Nat => a.1 ≠ b.1) sizes :=
      List.pairwise_map.mp hnd
    refine hnd2.imp ?_
    intro a b hne x hx y hy
    have hxc := ((sweep_sound a.1 (depthAt cuts a.1) a.2 0 0 0 (le_refl 0)
      (fun h => h)).1 x hx).1
    have hyc := ((sweep_sound b.1 (depthAt cuts b.1) b.2 0 0 0 (le_refl 0)
      (fun h => h)).1 y hy).1
    exact Or.inl (by rw [hxc, hyc]; exact hne)

/-- C5 counterexample: with the chrom-sizes table listing `chr2` before
`chr1` and one cut on each, the emitted chromosome order is the
lexicographic `chr1, chr2`, which does not match the table's key order
`chr2, chr1`. -/
theorem chromOrder_counterexample :
    (aggregate 0 0 [("chr2", 5), ("chr1", 5)]
        [⟨"chr1", 1, 3, "a", 0, "+"⟩, ⟨"chr2", 1, 3, "b", 0, "+"⟩]).map
        CoverageRun.chrom = ["chr1", "chr2"] ∧
    ([("chr2", 5), ("chr1", 5)] : List (String × Nat)).map Prod.fst =
      ["chr2", "chr1"] := by
  constructor <;> rfl

/-- C5 amended: for every input stream, the emitted runs are grouped by
chromosome in lexicographic order — not necessarily the ChromSizes key
order — and within one chromosome are strictly increasing in start and
pairwise non-overlapping; every run is nonempty with positive depth.
Assumes the sizes table has no duplicate chromosome key. -/
theorem aggregate_ordering (plusDelta minusDelta : Int)
    (sizes : List (String × Nat)) (intervals : List ReadInterval)
    (hnd : (sizes.map Prod.fst).Nodup) :
    (∀ r ∈ aggregate plusDelta minusDelta sizes intervals,
        0 < r.depth ∧ r.start < r.stop) ∧
    List.Pairwise
      (fun a b => chromLt a.chrom b.chrom = true ∨
        (a.chrom = b.chrom ∧ a.start < b.start ∧ a.stop ≤ b.start))
      (aggregate plusDelta minusDelta sizes intervals) := by
  have hagg : aggregate plusDelta minusDelta sizes intervals =
      List.insertionSort runLe
        ((sizes.map fun cl =>
          sweep cl.1
            (depthAt (cutSites sizes (shiftedStream plusDelta minusDelta intervals)) cl.1)
            0 0 0 cl.2).flatten) := by
    simp only [aggregate]
  rw [hagg]
  set cuts := cutSites sizes (shiftedStream plusDelta minusDelta intervals) with hc
  set flat := (sizes.map fun cl =>
      sweep cl.1 (depthAt cuts cl.1) 0 0 0 cl.2).flatten with hf
  have hperm : List.Perm (List.insertionSort runLe flat) flat :=
    List.perm_insertionSort runLe flat
  have hmem : ∀ r ∈ List.insertionSort runLe flat,
      0 < r.depth ∧ r.start < r.stop := by
    intro r hr
    have hrf : r ∈ flat := hperm.mem_iff.mp hr
    rcases List.mem_flatten.mp hrf with ⟨l, hl, hrl⟩
    rcases List.mem_map.mp hl with ⟨cl, _, rfl⟩
    obtain ⟨_, h2, _, h4, _⟩ := (sweep_sound cl.1 (depthAt cuts cl.1) cl.2 0 0 0
      (le_refl 0) (fun h => h)).1 r hrl
    exact ⟨h2, h4⟩
  refine ⟨hmem, ?_⟩
  have hsorted : List.Pairwise runLe (List.insertionSort runLe flat) :=
    List.sorted_insertionSort runLe flat
  have hdisj : List.Pairwise disjointRuns (List.insertionSort runLe flat) :=
    (flatten_disjoint cuts sizes hnd).perm hperm.symm disjointRuns_symm
  refine (hsorted.and hdisj).imp_of_mem ?_
  intro a b ha hb hab
  obtain ⟨hle, hd⟩ := hab
  rcases hle with hlt | ⟨heq, hst⟩
  · exact Or.inl hlt
  · rcases hd with hne | hstop | hstop
    · exact absurd heq hne
    · obtain ⟨-, has⟩ := hmem a ha
      exact Or.inr ⟨heq, by omega, hstop⟩
    · obtain ⟨-, hbs⟩ := hmem b hb
      exact absurd hstop (by omega)

/-- Witness for C5 amended on a concrete table and stream. -/
theorem aggregate_ordering_witness :
    (∀ r ∈ aggregate 0 0 [("chr1", 5)] [⟨"chr1", 1, 3, "a", 0, "+"⟩],
        0 < r.depth ∧ r.start < r.stop) ∧
    List.Pairwise
      (fun a b => chromLt a.chrom b.chrom = true ∨
        (a.chrom = b.chrom ∧ a.start < b.start ∧ a.stop ≤ b.start))
      (aggregate 0 0 [("chr1", 5)] [⟨"chr1", 1, 3, "a", 0, "+"⟩]) :=
  aggregate_ordering 0 0 [("chr1", 5)] [⟨"chr1", 1, 3, "a", 0, "+"⟩] (by decide)

/-! ## C6: out-of-bounds cut sites are dropped -/

/-- C6: a record whose delta-corrected cut position falls outside
`[0, chromLength)` of its chromosome contributes no cut site and no run:
removing it from the stream leaves the aggregation's output unchanged,
and no wrapped or negative-coordinate run appears for it. -/
theorem outOfBounds_spec (plusDelta minusDelta : Int)
    (sizes : List (String × Nat)) (rest : List ReadInterval)
    (r s : ReadInterval)
    (hs : awkShiftRecord plusDelta minusDelta r = some s)
    (hout : ∀ len, sizes.lookup s.chrom = some len →
      ¬ (0 ≤ cutPos s ∧ cutPos s < (len : Int))) :
    cutSites sizes (shiftedStream plusDelta minusDelta (r :: rest)) =
      cutSites sizes (shiftedStream plusDelta minusDelta rest) ∧
    aggregate plusDelta minusDelta sizes (r :: rest) =
      aggregate plusDelta minusDelta sizes rest := by
  have hstream : shiftedStream plusDelta minusDelta (r :: rest) =
      s :: shiftedStream plusDelta minusDelta rest := by
    simp [shiftedStream, List.filterMap_cons, hs]
  have hcuts : cutSites sizes (shiftedStream plusDelta minusDelta (r :: rest)) =
      cutSites sizes (shiftedStream plusDelta minusDelta rest) := by
    rw [hstream]
    unfold cutSites
    rw [List.filterMap_cons]
    rcases hl : sizes.lookup s.chrom with _ | len
    · simp
    · have := hout len hl
      simp only [hl]
      rw [if_neg this]
  refine ⟨hcuts, ?_⟩
  simp only [aggregate, hcuts]

/-- Witness for C6, the spec's boundary case: `start = 0` on the `+`
strand shifted by `delta = -5` cuts at a negative position and changes
nothing. -/
theorem outOfBounds_spec_witness :
    cutSites [("chr1", 50)]
        (shiftedStream (-5) 0 [⟨"chr1", 0, 10, "r0", 0, "+"⟩]) =
      cutSites [("chr1", 50)] (shiftedStream (-5) 0 []) ∧
    aggregate (-5) 0 [("chr1", 50)] [⟨"chr1", 0, 10, "r0", 0, "+"⟩] =
      aggregate (-5) 0 [("chr1", 50)] [] :=
  outOfBounds_spec (-5) 0 [("chr1", 50)] [] ⟨"chr1", 0, 10, "r0", 0, "+"⟩
    ⟨"chr1", -5, 5, "r0", 0, "+"⟩ (by decide) (by decide)
